import Mathlib

/-!
Verification of the IngressPlanner planning core (`planner.py`, with the text
serialization contract of `map_selector.py`).

Shallow embedding conventions:
* Python floats (latitudes, longitudes, distances) are embedded as exact
  rationals `ℚ`; all geometry in the source uses only ring operations and
  comparisons, which the embedding mirrors verbatim.
* The two external libraries the core calls are modelled as parameters:
  `scipy.spatial.Delaunay` becomes an oracle argument `simplices` (a list of
  index triples into the portal list, which is exactly what `tri.simplices`
  yields), and `geopy.distance.geodesic` becomes a distance function argument
  `dist : Portal → Portal → ℚ`.
* `_check_link_intersection` is embedded through its in-repository pure
  fallback `_line_segments_intersect` (the shapely branch is an external
  library call guarded by `try/except ImportError`); the spec's
  `segmentsIntersect` (§4.1) describes exactly this orientation-sign test.
* Fallible Python code (raising `ZeroDivisionError` or `StopIteration`)
  is embedded in `Except String`.
* Python `set`s of portals/links are embedded as insertion-ordered lists
  deduplicated by the corresponding `__eq__` (id-based) relation; within the
  planner all portals are created by `add_portal` with distinct positional
  ids, so id-keyed dictionaries are a faithful model of Python's
  hash-then-eq dictionaries.
-/

namespace IngressPlanner

/-- Decidable equality for `Except` results, so concrete runs of the
embedded fallible functions can be checked by evaluation. -/
instance {ε α : Type} [DecidableEq ε] [DecidableEq α] : DecidableEq (Except ε α) := by
  intro a b
  cases a <;> cases b
  case error.error e1 e2 =>
    exact decidable_of_iff (e1 = e2) (by constructor <;> (intro h; first | rw [h] | injection h))
  case ok.ok a1 a2 =>
    exact decidable_of_iff (a1 = a2) (by constructor <;> (intro h; first | rw [h] | injection h))
  case error.ok e1 a2 => exact isFalse (by intro h; injection h)
  case ok.error a1 e2 => exact isFalse (by intro h; injection h)

/-- `Portal` dataclass: id (assigned by insertion order), optional name,
latitude and longitude. -/
structure Portal where
  id : Nat
  name : Option String
  lat : ℚ
  lon : ℚ
deriving DecidableEq, Repr

instance : Inhabited Portal := ⟨⟨0, none, 0, 0⟩⟩

/-- `Portal.__eq__`: identity is by id only. -/
def portalEq (p q : Portal) : Bool := p.id == q.id

theorem portalEq_refl (p : Portal) : portalEq p p = true := by
  simp [portalEq]

theorem portalEq_symm (p q : Portal) : portalEq p q = portalEq q p := by
  by_cases h : p.id = q.id
  · simp [portalEq, h]
  · have h2 : ¬q.id = p.id := fun h2 => h h2.symm
    simp [portalEq, h, h2]

theorem portalEq_trans {p q r : Portal} (h1 : portalEq p q = true)
    (h2 : portalEq q r = true) : portalEq p r = true := by
  simp only [portalEq, beq_iff_eq] at *
  omega

/-- The `LINK_AP` table from `planner.py`. -/
def LINK_AP : Nat → ℤ
  | 1 => 313
  | 2 => 1250
  | 3 => 1563
  | 4 => 2500
  | 5 => 3125
  | 6 => 3750
  | 7 => 4375
  | 8 => 5000
  | _ => 0

/-- `FIELD_AP = 1250`. -/
def FIELD_AP : ℤ := 1250

/-- `Link` dataclass: two portals plus their geodesic distance in meters. -/
structure Link where
  portal1 : Portal
  portal2 : Portal
  distance : ℚ
deriving DecidableEq, Repr

instance : Inhabited Link := ⟨⟨default, default, 0⟩⟩

/-- `Link.ap`: the distance-bracket score, computed on `km = distance/1000.0`
exactly as the chained `if km < …` in the source. -/
def linkAp (distance : ℚ) : ℤ :=
  let km := distance / 1000
  if km < 1 then 0
  else if km < 5 then LINK_AP 1
  else if km < 10 then LINK_AP 2
  else if km < 25 then LINK_AP 3
  else if km < 50 then LINK_AP 4
  else if km < 100 then LINK_AP 5
  else if km < 150 then LINK_AP 6
  else if km < 200 then LINK_AP 7
  else LINK_AP 8

def Link.ap (l : Link) : ℤ := linkAp l.distance

/-- `Link.__eq__`/`__hash__` key: the unordered pair of portal ids. -/
def linkKey (l : Link) : Nat × Nat :=
  (min l.portal1.id l.portal2.id, max l.portal1.id l.portal2.id)

/-- `Link.__eq__`: equality on the unordered id pair. -/
def linkEq (a b : Link) : Bool := linkKey a == linkKey b

/-- `Field` dataclass: three portals and the three links forming its edges. -/
structure Field where
  portal1 : Portal
  portal2 : Portal
  portal3 : Portal
  links : Link × Link × Link
deriving DecidableEq, Repr

/-- `Field.ap`: the fixed constant `FIELD_AP`. -/
def Field.ap (_f : Field) : ℤ := FIELD_AP

/-- `Solution` dataclass. -/
structure Solution where
  links : List Link
  fields : List Field
  total_ap : ℤ
  distance : ℚ
  path : List Portal
deriving DecidableEq, Repr

/-- `AgentPlan` dataclass. -/
structure AgentPlan where
  links : List Link
  fields : List Field
  ap : ℤ
  distance : ℚ
  path : List Portal
deriving DecidableEq, Repr

instance : Inhabited AgentPlan := ⟨⟨[], [], 0, 0, []⟩⟩

/-- `MultiAgentSolution` dataclass. -/
structure MultiAgentSolution where
  agent_plans : List AgentPlan
  total_ap : ℤ
deriving DecidableEq, Repr

/-! Geometry kernel (`planner.py` lines 248–253 and 316–328). Points are
`(lon, lat)` pairs exactly as `_check_link_intersection` builds them. -/

/-- The `ccw` helper of `_line_segments_intersect`:
`(C[1]-A[1])*(B[0]-A[0]) > (B[1]-A[1])*(C[0]-A[0])`. -/
def ccw (A B C : ℚ × ℚ) : Bool :=
  decide ((C.2 - A.2) * (B.1 - A.1) > (B.2 - A.2) * (C.1 - A.1))

/-- `_line_segments_intersect`: proper-crossing orientation test. -/
def lineSegmentsIntersect (p1 p2 p3 p4 : ℚ × ℚ) : Bool :=
  (ccw p1 p3 p4 != ccw p2 p3 p4) && (ccw p1 p2 p3 != ccw p1 p2 p4)

/-- The `(lon, lat)` point of a portal, as used by `_check_link_intersection`. -/
def portalPoint (p : Portal) : ℚ × ℚ := (p.lon, p.lat)

/-- The endpoint-sharing condition of `_check_link_intersection`. -/
def sharesPortal (link1 link2 : Link) : Bool :=
  portalEq link1.portal1 link2.portal1 || portalEq link1.portal1 link2.portal2 ||
  portalEq link1.portal2 link2.portal1 || portalEq link1.portal2 link2.portal2

/-- `_check_link_intersection`: links sharing a portal never count as
intersecting; otherwise the segment test on the four `(lon, lat)` endpoints
decides (the in-repository `_line_segments_intersect` fallback; the guarded
shapely call is an external library). -/
def checkLinkIntersection (link1 link2 : Link) : Bool :=
  if sharesPortal link1 link2 then false
  else
    lineSegmentsIntersect (portalPoint link1.portal1) (portalPoint link1.portal2)
      (portalPoint link2.portal1) (portalPoint link2.portal2)

/-- The `sign` helper of `_point_in_triangle` (barycentric orientation). -/
def triSign (p1 p2 p3 : Portal) : ℚ :=
  (p1.lat - p3.lat) * (p2.lon - p3.lon) - (p2.lat - p3.lat) * (p1.lon - p3.lon)

/-- `_point_in_triangle`: non-strict same-sign barycentric test (boundary
counts as inside). -/
def pointInTriangle (p p1 p2 p3 : Portal) : Bool :=
  let d1 := triSign p p1 p2
  let d2 := triSign p p2 p3
  let d3 := triSign p p3 p1
  let has_neg := decide (d1 < 0) || decide (d2 < 0) || decide (d3 < 0)
  let has_pos := decide (d1 > 0) || decide (d2 > 0) || decide (d3 > 0)
  !(has_neg && has_pos)

/-- `_count_points_in_field`: count portals (vertices excluded, membership by
`Portal.__eq__`) lying inside-or-on the field's triangle. -/
def countPointsInField (f : Field) (portals : List Portal) : Nat :=
  portals.countP (fun p =>
    if portalEq p f.portal1 || portalEq p f.portal2 || portalEq p f.portal3 then false
    else pointInTriangle p f.portal1 f.portal2 f.portal3)

/-! Candidate generation (`_generate_possible_links`, lines 195–220). -/

/-- `add_portal` applied along a coordinate list starting at id `k`:
each portal gets `id = len(self.portals)` and no name. -/
def mkPortalsFrom (k : Nat) : List (ℚ × ℚ) → List Portal
  | [] => []
  | c :: cs => ⟨k, none, c.1, c.2⟩ :: mkPortalsFrom (k + 1) cs

/-- The portal list `plan(portals=…)` builds: positional ids from 0. -/
def mkPortals (coords : List (ℚ × ℚ)) : List Portal := mkPortalsFrom 0 coords

/-- The three directed edges `(simplex[i], simplex[(i+1) % 3])` of a simplex. -/
def simplexEdges (s : Nat × Nat × Nat) : List (Nat × Nat) :=
  [(s.1, s.2.1), (s.2.1, s.2.2), (s.2.2, s.1)]

/-- The `if p1_id > p2_id: swap` normalization. -/
def orderPair (p : Nat × Nat) : Nat × Nat := if p.1 > p.2 then (p.2, p.1) else p

/-- `_generate_possible_links`: extract the simplex edges of the Delaunay
oracle, deduplicate by ordered id pair (`link_set`), and build links carrying
the geodesic distance. Index lookups `self.portals[i]` use `getD`; the
triangulation oracle only produces in-range indices. -/
def genPossibleLinks (portals : List Portal) (dist : Portal → Portal → ℚ)
    (simplices : List (Nat × Nat × Nat)) : List Link :=
  if portals.length < 2 then []
  else
    ((simplices.map simplexEdges).flatten.map orderPair).foldl
      (fun (acc : List (Nat × Nat) × List Link) e =>
        if acc.1.contains e then acc
        else
          let p1 := portals.getD e.1 default
          let p2 := portals.getD e.2 default
          (e :: acc.1, acc.2 ++ [Link.mk p1 p2 (dist p1 p2)]))
      ([], []) |>.2

/-! Greedy selection (`_greedy_optimize`, lines 340–361). -/

/-- `l.ap / max(l.distance, 1)`: the score-density sort key. -/
def linkDensity (l : Link) : ℚ := (l.ap : ℚ) / max l.distance 1

/-- `possible_links.sort(key=…, reverse=True)`: Python's sort is stable, so
its output is the unique stable descending-by-density arrangement, which
insertion sort with a non-strict descending relation reproduces exactly. -/
def sortCandidates (candidates : List Link) : List Link :=
  List.insertionSort (fun a b => linkDensity b ≤ linkDensity a) candidates

/-- The greedy acceptance loop: keep a link iff it does not intersect any
already-selected link (`_check_link_intersection(link, existing_link)`). -/
def greedySelect (candidates : List Link) : List Link :=
  candidates.foldl
    (fun selected link =>
      if selected.any (fun ex => checkLinkIntersection link ex) then selected
      else selected ++ [link])
    []

/-- Insert into a Python set of portals (dedup by `Portal.__eq__`). -/
def addPortalSet (s : List Portal) (p : Portal) : List Portal :=
  if s.any (fun q => portalEq q p) then s else s ++ [p]

/-- The `used_portals` set accumulated during greedy selection: both endpoints
of every accepted link. -/
def usedPortalsOf (selected : List Link) : List Portal :=
  selected.foldl (fun s l => addPortalSet (addPortalSet s l.portal1) l.portal2) []

/-! Field derivation (`_generate_fields`, lines 255–296). -/

/-- `portal_links[p]`: the links incident to `p`, in link-list order. -/
def portalLinks (links : List Link) (p : Portal) : List Link :=
  links.filter (fun l => portalEq l.portal1 p || portalEq l.portal2 p)

/-- `l.portal2 if l.portal1 == p else l.portal1`. -/
def otherEnd (l : Link) (p : Portal) : Portal :=
  if portalEq l.portal1 p then l.portal2 else l.portal1

/-- The neighbor set `{other endpoint of l for l in portal_links[p]}`
(a Python set: first-seen order, deduplicated by `Portal.__eq__`). -/
def neighborsOf (links : List Link) (p : Portal) : List Portal :=
  (portalLinks links p).foldl (fun s l => addPortalSet s (otherEnd l p)) []

/-- `p1_neighbors & p2_neighbors`. -/
def commonNeighbors (links : List Link) (p1 p2 : Portal) : List Portal :=
  (neighborsOf links p1).filter (fun q => (neighborsOf links p2).any (fun w => portalEq q w))

/-- `tuple(sorted([a, b, c]))`: the deduplication key of `field_set`. -/
def sortedTriple (a b c : Nat) : List Nat :=
  List.insertionSort (fun x y => x ≤ y) [a, b, c]

/-- `_generate_fields`: for every link `(p1,p2)` and every common neighbor
`p3`, close the triangle once per sorted id triple, locating the two other
edges with `next(… )` over the incident-link lists (embedded as `find?`; the
`none` branches are Python's `StopIteration`, unreachable because `p3` is a
common neighbor, and the key is recorded before the lookups as in the
source). -/
def generateFields (links : List Link) : List Field :=
  (links.foldl
    (fun (acc : List (List Nat) × List Field) link =>
      let p1 := link.portal1
      let p2 := link.portal2
      (commonNeighbors links p1 p2).foldl
        (fun (acc : List (List Nat) × List Field) p3 =>
          let key := sortedTriple p1.id p2.id p3.id
          if acc.1.contains key then acc
          else
            match (portalLinks links p1).find?
                (fun l => portalEq l.portal1 p3 || portalEq l.portal2 p3),
              (portalLinks links p2).find?
                (fun l => portalEq l.portal1 p3 || portalEq l.portal2 p3) with
            | some link2, some link3 =>
              (key :: acc.1, acc.2 ++ [Field.mk p1 p2 p3 (link, link2, link3)])
            | _, _ => (key :: acc.1, acc.2))
        acc)
    ([], [])).2

/-! Path building (`_generate_path`, lines 389–442). -/

/-- One `graph[k].append(v)` on the adjacency map (defaultdict keyed by
portal, id-identity). -/
def graphAdd (g : List (Portal × List Portal)) (k v : Portal) : List (Portal × List Portal) :=
  match g with
  | [] => [(k, [v])]
  | kv :: rest =>
    if portalEq kv.1 k then (kv.1, kv.2 ++ [v]) :: rest
    else kv :: graphAdd rest k v

/-- The adjacency map built from the links. -/
def buildGraph (links : List Link) : List (Portal × List Portal) :=
  links.foldl (fun g l => graphAdd (graphAdd g l.portal1 l.portal2) l.portal2 l.portal1) []

/-- `graph[k]` lookup (empty for a missing key, as with a defaultdict). -/
def graphGet (g : List (Portal × List Portal)) (k : Portal) : List Portal :=
  match g with
  | [] => []
  | kv :: rest => if portalEq kv.1 k then kv.2 else graphGet rest k

/-- `min(graph.keys(), key=lambda p: len(graph[p]))`: first key of minimal
adjacency size. -/
def minKey (g : List (Portal × List Portal)) : Option Portal :=
  (g.foldl
    (fun best kv =>
      match best with
      | none => some kv
      | some b => if kv.2.length < b.2.length then some kv else some b)
    none).map (fun kv => kv.1)

/-- The `next(l for l in links if …)` lookup of the path builder. -/
def findLink (links : List Link) (a b : Portal) : Option Link :=
  links.find? (fun l => (portalEq l.portal1 a && portalEq l.portal2 b) ||
                        (portalEq l.portal2 a && portalEq l.portal1 b))

/-- The nearest-unvisited-neighbor scan (`best_distance` starts at infinity,
strict `<`, ties keep the earlier neighbor). Errors model `StopIteration`. -/
def pickBest (links : List Link) (dist : Portal → Portal → ℚ) (visited : List Link)
    (current : Portal) :
    List Portal → Option (Portal × Link × ℚ) → Except String (Option (Portal × Link × ℚ))
  | [], best => Except.ok best
  | neighbor :: rest, best =>
    match findLink links current neighbor with
    | none => Except.error "StopIteration"
    | some link =>
      if visited.any (fun v => linkEq v link) then pickBest links dist visited current rest best
      else
        let d := dist current neighbor
        pickBest links dist visited current rest
          (match best with
           | none => some (neighbor, link, d)
           | some b => if d < b.2.2 then some (neighbor, link, d) else some b)

/-- The fallback scan (`if best_next is None`): first neighbor whose link is
untraversed, without the distance minimization. -/
def pickFallback (links : List Link) (visited : List Link) (current : Portal) :
    List Portal → Except String (Option (Portal × Link))
  | [] => Except.ok none
  | neighbor :: rest =>
    match findLink links current neighbor with
    | none => Except.error "StopIteration"
    | some link =>
      if visited.any (fun v => linkEq v link) then pickFallback links visited current rest
      else Except.ok (some (neighbor, link))

/-- The `while len(visited_links) < len(links)` walk. Each iteration appends
one untraversed link to `visited_links` or exits, so `links.length` fuel is
exact: the fuel-exhaustion error is unreachable (proved below). -/
def walkLoop (links : List Link) (dist : Portal → Portal → ℚ)
    (g : List (Portal × List Portal)) :
    Nat → List Link → Portal → List Portal → Except String (List Portal)
  | 0, visited, _, path =>
    if visited.length < links.length then Except.error "fuel" else Except.ok path
  | fuel + 1, visited, current, path =>
    if visited.length < links.length then
      match pickBest links dist visited current (graphGet g current) none with
      | Except.error e => Except.error e
      | Except.ok (some (nxt, link, _)) =>
        walkLoop links dist g fuel (visited ++ [link]) nxt (path ++ [nxt])
      | Except.ok none =>
        match pickFallback links visited current (graphGet g current) with
        | Except.error e => Except.error e
        | Except.ok (some (nxt, link)) =>
          walkLoop links dist g fuel (visited ++ [link]) nxt (path ++ [nxt])
        | Except.ok none => Except.ok path
    else Except.ok path

/-- `_generate_path`. -/
def genPath (links : List Link) (dist : Portal → Portal → ℚ) :
    Except String (List Portal) :=
  if links.isEmpty then Except.ok []
  else
    let g := buildGraph links
    match minKey g with
    | none => Except.error "min() arg is an empty sequence"
    | some start => walkLoop links dist g links.length [] start [start]

/-- `_calculate_path_distance`. -/
def calcPathDistance (dist : Portal → Portal → ℚ) : List Portal → ℚ
  | [] => 0
  | [_] => 0
  | a :: b :: rest => dist a b + calcPathDistance dist (b :: rest)

/-! Plan assembly (`_greedy_optimize` lines 340–387, `plan` lines 444–463). -/

/-- `_greedy_optimize`: sort by density, select greedily, derive fields and
filter by the ≤ 8 enclosed-point cap, total the AP, and build the path. -/
def greedyOptimize (dist : Portal → Portal → ℚ) (possible_links : List Link) :
    Except String Solution :=
  let sorted := sortCandidates possible_links
  let selected := greedySelect sorted
  let used := usedPortalsOf selected
  let fields := (generateFields selected).filter
    (fun f => decide (countPointsInField f used ≤ 8))
  let total_ap := (selected.map Link.ap).sum + (fields.map Field.ap).sum
  match genPath selected dist with
  | Except.error e => Except.error e
  | Except.ok path =>
    Except.ok ⟨selected, fields, total_ap, calcPathDistance dist path, path⟩

/-- `plan`: fewer than 3 portals or no candidates yield the empty solution. -/
def plan (coords : List (ℚ × ℚ)) (dist : Portal → Portal → ℚ)
    (simplices : List (Nat × Nat × Nat)) : Except String Solution :=
  let portals := mkPortals coords
  if portals.length < 3 then Except.ok ⟨[], [], 0, 0, []⟩
  else
    let possible_links := genPossibleLinks portals dist simplices
    if possible_links.isEmpty then Except.ok ⟨[], [], 0, 0, []⟩
    else greedyOptimize dist possible_links

/-- The accepted-link list a `plan` run selects (stage view of `plan`). -/
def planSelected (coords : List (ℚ × ℚ)) (dist : Portal → Portal → ℚ)
    (simplices : List (Nat × Nat × Nat)) : List Link :=
  let portals := mkPortals coords
  if portals.length < 3 then []
  else
    let possible_links := genPossibleLinks portals dist simplices
    if possible_links.isEmpty then []
    else greedySelect (sortCandidates possible_links)

/-- The `used_portals` of a `plan` run. -/
def planUsed (coords : List (ℚ × ℚ)) (dist : Portal → Portal → ℚ)
    (simplices : List (Nat × Nat × Nat)) : List Portal :=
  usedPortalsOf (planSelected coords dist simplices)

/-- The surviving field list of a `plan` run: candidate triangles whose
enclosed used-portal count is at most 8. -/
def planFields (coords : List (ℚ × ℚ)) (dist : Portal → Portal → ℚ)
    (simplices : List (Nat × Nat × Nat)) : List Field :=
  (generateFields (planSelected coords dist simplices)).filter
    (fun f => decide (countPointsInField f (planUsed coords dist simplices) ≤ 8))

/-- The walk of a `plan` run (empty when `genPath` fails, which it never
does). -/
def planPath (coords : List (ℚ × ℚ)) (dist : Portal → Portal → ℚ)
    (simplices : List (Nat × Nat × Nat)) : List Portal :=
  match genPath (planSelected coords dist simplices) dist with
  | Except.ok p => p
  | Except.error _ => []

/-! Multi-agent partitioning (`multi_agent_plan`, lines 465–510). -/

/-- The body of the per-agent loop: slice the links, keep the fields whose
three edges all lie in the slice (`Link.__eq__` membership), total the AP,
and build the agent's own path. -/
def buildAgentPlan (dist : Portal → Portal → ℚ) (fields : List Field)
    (agent_links : List Link) : Except String AgentPlan :=
  match genPath agent_links dist with
  | Except.error e => Except.error e
  | Except.ok agent_path =>
    let agent_fields := fields.filter
      (fun f => [f.links.1, f.links.2.1, f.links.2.2].all
        (fun l => agent_links.any (fun m => linkEq l m)))
    let agent_ap := (agent_links.map Link.ap).sum + (agent_fields.map Field.ap).sum
    Except.ok ⟨agent_links, agent_fields, agent_ap,
      calcPathDistance dist agent_path, agent_path⟩

/-- The `for i in range(num_agents)` loop, carrying `start_idx`; slice `i`
gets `links_per_agent + (1 if i < remainder else 0)` links. -/
def agentsLoop (dist : Portal → Portal → ℚ) (fields : List Field)
    (links : List Link) (q r : ℤ) :
    Nat → Nat → Nat → Except String (List AgentPlan)
  | 0, _, _ => Except.ok []
  | rem + 1, i, start =>
    let num := (q + (if (i : ℤ) < r then 1 else 0)).toNat
    let agent_links := (links.drop start).take num
    match buildAgentPlan dist fields agent_links with
    | Except.error e => Except.error e
    | Except.ok ap =>
      match agentsLoop dist fields links q r rem (i + 1) (start + num) with
      | Except.error e => Except.error e
      | Except.ok rest => Except.ok (ap :: rest)

/-- Partitioning of a completed solution (`multi_agent_plan` after its `plan`
call): an empty link list short-circuits; `len(links) // num_agents` and `%`
are Python floor division and modulo (`ZeroDivisionError` at 0); `range`
over a non-positive agent count is empty. -/
def multiAgentPlanOf (dist : Portal → Portal → ℚ) (solution : Solution)
    (num_agents : ℤ) : Except String MultiAgentSolution :=
  if solution.links.isEmpty then Except.ok ⟨[], 0⟩
  else if num_agents = 0 then Except.error "ZeroDivisionError"
  else
    let links_per_agent := Int.fdiv (solution.links.length : ℤ) num_agents
    let remainder := Int.fmod (solution.links.length : ℤ) num_agents
    match agentsLoop dist solution.fields solution.links links_per_agent remainder
        num_agents.toNat 0 0 with
    | Except.error e => Except.error e
    | Except.ok agent_plans => Except.ok ⟨agent_plans, solution.total_ap⟩

/-- `multi_agent_plan`: plan, then partition. -/
def multiAgentPlan (coords : List (ℚ × ℚ)) (dist : Portal → Portal → ℚ)
    (simplices : List (Nat × Nat × Nat)) (num_agents : ℤ) :
    Except String MultiAgentSolution :=
  match plan coords dist simplices with
  | Except.error e => Except.error e
  | Except.ok solution => multiAgentPlanOf dist solution num_agents

/-! Text serialization: `MapPortalSelector.save_to_file` (txt branch,
`map_selector.py` lines 219–226) and `load_portals_from_file` (`planner.py`
lines 171–189). Lines are lists of characters; Python's `str(float)` /
`float(str)` round trip is a parameter pair `(fmt, parseF)`. -/

/-- The characters `str.strip()` removes: Python strips exactly the
code points its `str.isspace()` accepts (CPython's `Py_UNICODE_ISSPACE`
table: 0x09–0x0D, 0x1C–0x1F, the space, NEL 0x85, NBSP 0xA0, Ogham space
0x1680, the 0x2000–0x200A spaces, the line and paragraph separators
0x2028/0x2029, 0x202F, 0x205F, and the ideographic space 0x3000). -/
def isPySpace (c : Char) : Bool :=
  let n := c.toNat
  (decide (9 ≤ n) && decide (n ≤ 13)) || (decide (28 ≤ n) && decide (n ≤ 31)) ||
  n == 32 || n == 133 || n == 160 || n == 5760 ||
  (decide (8192 ≤ n) && decide (n ≤ 8202)) || n == 8232 || n == 8233 ||
  n == 8239 || n == 8287 || n == 12288

/-- `str.strip()`. -/
def pyStrip (l : List Char) : List Char :=
  ((l.dropWhile isPySpace).reverse.dropWhile isPySpace).reverse

/-- `str.split(sep)` for a one-character separator (keeps empty chunks;
`''.split(sep) == ['']`). -/
def splitOnChar (sep : Char) : List Char → List (List Char)
  | [] => [[]]
  | c :: cs =>
    if c = sep then [] :: splitOnChar sep cs
    else
      match splitOnChar sep cs with
      | [] => [[c]]
      | h :: t => (c :: h) :: t

/-- Join lines with a trailing `'\n'` per line, as `f.write(… + "\n")`
produces. -/
def joinLines : List (List Char) → List Char
  | [] => []
  | l :: ls => l ++ '\n' :: joinLines ls

/-- One loop iteration of `load_portals_from_file`: strip, skip blank and
`#` lines, split on commas, parse the floats (a `none` is Python's
`ValueError`, skipping the line), and `add_portal` with `id = len(portals)`. -/
def loadLine (parseF : List Char → Option ℚ) (acc : List Portal)
    (rawLine : List Char) : List Portal :=
  let line := pyStrip rawLine
  if line.isEmpty then acc
  else if line.headD ' ' = '#' then acc
  else
    let parts := splitOnChar ',' line
    if 2 ≤ parts.length then
      if parts.length = 2 then
        match parseF (parts.getD 0 []), parseF (parts.getD 1 []) with
        | some lat, some lon => acc ++ [⟨acc.length, none, lat, lon⟩]
        | _, _ => acc
      else
        match parseF (parts.getD 1 []), parseF (parts.getD 2 []) with
        | some lat, some lon =>
          acc ++ [⟨acc.length, some (String.mk (parts.getD 0 [])), lat, lon⟩]
        | _, _ => acc
    else acc

/-- `load_portals_from_file` over the file content. -/
def loadPortalsFromContent (parseF : List Char → Option ℚ) (content : List Char) :
    List Portal :=
  (splitOnChar '\n' content).foldl (loadLine parseF) []

/-- `save_to_file(format='txt')`: two comment lines, one blank line, then
`f"{name},{lat},{lon}"` per portal. -/
def saveLines (fmt : ℚ → List Char) (portals : List (String × ℚ × ℚ)) :
    List (List Char) :=
  "# Portal坐标文件".data :: "# 格式：name,lat,lon".data :: [] ::
    portals.map (fun t => t.1.data ++ ',' :: fmt t.2.1 ++ ',' :: fmt t.2.2)

/-- The full text `save_to_file` writes. -/
def saveFileContent (fmt : ℚ → List Char) (portals : List (String × ℚ × ℚ)) :
    List Char :=
  joinLines (saveLines fmt portals)

/-- The portal records reloading should reproduce: ids by position from `k`. -/
def portalsFromIdx (k : Nat) : List (String × ℚ × ℚ) → List Portal
  | [] => []
  | t :: ts => ⟨k, some t.1, t.2.1, t.2.2⟩ :: portalsFromIdx (k + 1) ts

/-- Decimal digits of a natural number (fuel-based; 30 digits suffice for
every value used here). -/
def natDigits : Nat → Nat → List Char
  | 0, _ => []
  | fuel + 1, n =>
    if n < 10 then [Char.ofNat (48 + n)]
    else natDigits fuel (n / 10) ++ [Char.ofNat (48 + n % 10)]

/-- A concrete serialization for integral rationals (the shape `str` gives
integer-valued coordinates, sans the trailing `.0` that `float(str)` also
accepts); used to instantiate the abstract formatter in concrete runs. -/
def fmtInt (q : ℚ) : List Char :=
  if q.num < 0 then '-' :: natDigits 30 q.num.natAbs else natDigits 30 q.num.natAbs

/-- Parse an unsigned decimal digit string. -/
def parseDigitsAux : List Char → Nat → Option Nat
  | [], acc => some acc
  | c :: cs, acc =>
    if c.isDigit then parseDigitsAux cs (acc * 10 + (c.toNat - 48)) else none

/-- A concrete `float(str)` restricted to optionally-signed integer literals;
the matching parser for `fmtInt`. -/
def parseIntChars : List Char → Option ℚ
  | [] => none
  | '-' :: cs =>
    if cs.isEmpty then none else (parseDigitsAux cs 0).map (fun n => -(n : ℚ))
  | cs => (parseDigitsAux cs 0).map (fun n => (n : ℚ))

/-! Portal hashing (`Portal.__hash__`, lines 40–41): CPython's deterministic
numeric tuple hash, `hash((id, lat, lon))`. -/

/-- 2^64, the unsigned hash width. -/
def U64 : Nat := 18446744073709551616

/-- CPython's numeric hash modulus 2^61 − 1. -/
def PYHASH_MODULUS : Nat := 2305843009213693951

/-- Binary modular exponentiation (fuel-based, 64 levels cover every 64-bit
exponent). -/
def powModFuel : Nat → Nat → Nat → Nat → Nat
  | 0, _, _, m => 1 % m
  | fuel + 1, b, e, m =>
    if e = 0 then 1 % m
    else
      let h := powModFuel fuel b (e / 2) m
      let h2 := h * h % m
      if e % 2 = 1 then h2 * b % m else h2

def powMod (b e m : Nat) : Nat := powModFuel 64 b e m

/-- CPython's hash of a non-negative rational value (floats hash as their
exact rational value): `num * inverse(den) mod (2^61 − 1)`; a denominator
divisible by the modulus hashes as the infinity hash. -/
def pyHashNonnegRat (q : ℚ) : Nat :=
  if q.den % PYHASH_MODULUS = 0 then 314159
  else
    q.num.toNat % PYHASH_MODULUS *
      powMod (q.den % PYHASH_MODULUS) (PYHASH_MODULUS - 2) PYHASH_MODULUS %
      PYHASH_MODULUS

/-- CPython's hash of a rational (hence float or int) value: negate for
negatives, reserving −1. -/
def pyHashRat (q : ℚ) : ℤ :=
  if q < 0 then
    let h : ℤ := pyHashNonnegRat (-q)
    if -h = -1 then -2 else -h
  else pyHashNonnegRat q

/-- Cast a signed hash to `Py_uhash_t` (unsigned 64-bit). -/
def toU64 (i : ℤ) : Nat := (i % (U64 : ℤ)).toNat

def XXPRIME_1 : Nat := 11400714785074694791
def XXPRIME_2 : Nat := 14029467366897019727
def XXPRIME_5 : Nat := 2870177450012600261

/-- `_PyHASH_XXROTATE`: rotate a 64-bit word left by 31. -/
def rotl31 (x : Nat) : Nat := x * 2147483648 % U64 + x / 8589934592

/-- One lane of CPython's tuple hash. -/
def pyTupleHashLane (acc lane : Nat) : Nat :=
  rotl31 ((acc + lane * XXPRIME_2) % U64) * XXPRIME_1 % U64

/-- CPython's tuple hash (`tuplehash` in `Objects/tupleobject.c`): numeric
tuples hash deterministically (no per-process salt). -/
def pyTupleHash (lanes : List Nat) : Nat :=
  let acc := (lanes.foldl pyTupleHashLane XXPRIME_5 +
    Nat.xor lanes.length (Nat.xor XXPRIME_5 3527539)) % U64
  if acc = U64 - 1 then 1546275796 else acc

/-- `Portal.__hash__`: `hash((self.id, self.lat, self.lon))`. -/
def portalHash (p : Portal) : Nat :=
  pyTupleHash [toU64 (pyHashRat (p.id : ℚ)), toU64 (pyHashRat p.lat),
    toU64 (pyHashRat p.lon)]

/-! Concrete data shared by the witness runs: four portals in a tall
rectangle, the two Delaunay simplices over them, and a taxicab stand-in for
the geodesic distance oracle (meters). -/

def d0 : Portal → Portal → ℚ := fun p q => |p.lat - q.lat| + |p.lon - q.lon|

def c0 : List (ℚ × ℚ) := [(0, 0), (0, 1), (10, 0), (10, 1)]

def s0 : List (Nat × Nat × Nat) := [(0, 1, 2), (1, 2, 3)]

def P0 : Portal := ⟨0, none, 0, 0⟩

def P1 : Portal := ⟨1, none, 0, 1⟩

def P2 : Portal := ⟨2, none, 10, 0⟩

def P3 : Portal := ⟨3, none, 10, 1⟩

def L01 : Link := ⟨P0, P1, 1⟩

def L12 : Link := ⟨P1, P2, 11⟩

def L02 : Link := ⟨P0, P2, 10⟩

def L23 : Link := ⟨P2, P3, 1⟩

def L13 : Link := ⟨P1, P3, 10⟩

def cand0 : List Link := [L01, L12, L02, L23, L13]

def F0 : Field := ⟨P0, P1, P2, (L01, L02, L12)⟩

def F1 : Field := ⟨P1, P2, P3, (L12, L13, L23)⟩

def sol0 : Solution := ⟨cand0, [F0, F1], 2500, 22, [P0, P1, P3, P2, P0]⟩

set_option maxRecDepth 2000

/-- The concrete planning run used by the witnesses: `plan` on the rectangle
accepts all five candidate links and both fields. -/
theorem plan_c0 : plan c0 d0 s0 = Except.ok sol0 := by
  have hmk : mkPortals c0 = [P0, P1, P2, P3] := by with_unfolding_all decide
  have hg : genPossibleLinks [P0, P1, P2, P3] d0 s0 = cand0 := by with_unfolding_all decide
  have hs : sortCandidates cand0 = cand0 := by with_unfolding_all decide
  have hsel : greedySelect cand0 = cand0 := by with_unfolding_all decide
  have hused : usedPortalsOf cand0 = [P0, P1, P2, P3] := by with_unfolding_all decide
  have hfil : (generateFields cand0).filter
      (fun f => decide (countPointsInField f [P0, P1, P2, P3] ≤ 8)) = [F0, F1] := by
    with_unfolding_all decide
  have hpath : genPath cand0 d0 = Except.ok [P0, P1, P3, P2, P0] := by
    with_unfolding_all decide
  have hdist : calcPathDistance d0 [P0, P1, P3, P2, P0] = 22 := by with_unfolding_all decide
  have hne : cand0.isEmpty = false := by with_unfolding_all decide
  simp only [plan, hmk, hg, hne]
  norm_num [greedyOptimize, hs, hsel, hused, hfil, hpath, hdist, sol0]
  with_unfolding_all decide

/-! C4 — the link score bracket table. -/

/-- Modelled from the spec: the bracket table of §4.3, stated directly over
meters with each bracket closed at its lower edge
(`<1km:0, [1,5):313, [5,10):1250, [10,25):1563, [25,50):2500, [50,100):3125,
[100,150):3750, [150,200):4375, ≥200:5000`). -/
def linkApSpec (distance : ℚ) : ℤ :=
  if distance < 1000 then 0
  else if distance < 5000 then 313
  else if distance < 10000 then 1250
  else if distance < 25000 then 1563
  else if distance < 50000 then 2500
  else if distance < 100000 then 3125
  else if distance < 150000 then 3750
  else if distance < 200000 then 4375
  else 5000

/-- C4: every link's score follows the fixed distance-bracket table with
brackets closed at their lower edge; in particular a 5000-meter link scores
1250. -/
theorem link_ap_bracket_table :
    (∀ d : ℚ, linkAp d = linkApSpec d) ∧ linkAp 5000 = 1250 := by
  constructor
  · intro d
    have h : ∀ c : ℚ, d / 1000 < c ↔ d < c * 1000 :=
      fun c => div_lt_iff₀ (by norm_num)
    simp only [linkAp, linkApSpec, LINK_AP, h]
    norm_num
  · with_unfolding_all decide

/-! C9 — Portal equality is id-only while the hash also digests the
coordinates. -/

/-- C9: `Portal.__eq__` compares ids only, while `hash((id, lat, lon))`
depends on the coordinates: two equal portals (same id 0, latitudes 1,
longitudes 2 versus 3) have different hashes. -/
theorem portal_hash_not_function_of_eq :
    (∀ p q : Portal, portalEq p q = (p.id == q.id)) ∧
    portalEq ⟨0, none, 1, 2⟩ ⟨0, none, 1, 3⟩ = true ∧
    portalHash ⟨0, none, 1, 2⟩ ≠ portalHash ⟨0, none, 1, 3⟩ := by
  refine ⟨fun p q => rfl, by with_unfolding_all decide, by with_unfolding_all decide⟩

/-! C1 — fewer than 3 portals, or zero candidate links from the
triangulation, yield the empty solution without an error. -/

theorem mkPortalsFrom_length (k : Nat) (coords : List (ℚ × ℚ)) :
    (mkPortalsFrom k coords).length = coords.length := by
  induction coords generalizing k with
  | nil => rfl
  | cons c cs ih => simp [mkPortalsFrom, ih]

/-- C1: for fewer than 3 portals, and for any portal list on which the
triangulation oracle yields zero candidate links (the degenerate/collinear
case), `plan` returns `Except.ok` of the all-empty solution — zero links,
fields, score and distance and an empty path — rather than an error. -/
theorem plan_empty_solution_cases (coords : List (ℚ × ℚ))
    (dist : Portal → Portal → ℚ) (simplices : List (Nat × Nat × Nat)) :
    (coords.length < 3 →
      plan coords dist simplices = Except.ok ⟨[], [], 0, 0, []⟩) ∧
    (genPossibleLinks (mkPortals coords) dist simplices = [] →
      plan coords dist simplices = Except.ok ⟨[], [], 0, 0, []⟩) := by
  constructor
  · intro h
    have hlen : (mkPortals coords).length < 3 := by
      rw [mkPortals, mkPortalsFrom_length]; exact h
    simp [plan, hlen]
  · intro h
    by_cases hlen : (mkPortals coords).length < 3
    · simp [plan, hlen]
    · simp [plan, hlen, h]

/-- C1 witness: two portals (and an empty oracle) hit both hypotheses. -/
theorem plan_empty_solution_cases_witness :
    plan [(0, 0), (1, 1)] d0 [] = Except.ok ⟨[], [], 0, 0, []⟩ :=
  (plan_empty_solution_cases [(0, 0), (1, 1)] d0 []).1 (by norm_num)

/-! C2 — agent counts ≤ 0. The code only faults (`ZeroDivisionError` from
`len(links) // num_agents`) when `num_agents == 0` and the planned solution
has links; an empty solution short-circuits before the division for any
agent count, and a negative agent count makes `range(num_agents)` empty, so
the call silently returns a `MultiAgentSolution` with no agent plans. -/

/-- C2: evaluating `multi_agent_plan` at the failing inputs. With the empty
portal list and `num_agents = 0` it returns the empty `MultiAgentSolution`
(no fault); on the rectangle run with `num_agents = -1` it returns agent
plans `[]` with the unsplit total, again without fault; the fault the claim
expects only appears for `num_agents = 0` on a solution that has links. -/
theorem multi_agent_nonpositive_agents_no_fault :
    multiAgentPlan [] d0 [] 0 = Except.ok ⟨[], 0⟩ ∧
    multiAgentPlan c0 d0 s0 (-1) = Except.ok ⟨[], 2500⟩ ∧
    multiAgentPlanOf d0 sol0 0 = Except.error "ZeroDivisionError" := by
  refine ⟨by with_unfolding_all decide, ?_, ?_⟩
  · show multiAgentPlan c0 d0 s0 (-1) = Except.ok ⟨[], 2500⟩
    rw [multiAgentPlan, plan_c0]
    with_unfolding_all rfl
  · have h1 : sol0.links.isEmpty = false := by with_unfolding_all rfl
    rw [multiAgentPlanOf, h1]
    norm_num

/-! The stage view of a successful `plan` run: every component of the
returned solution is the corresponding stage function of the inputs. -/

theorem plan_ok_eq (coords : List (ℚ × ℚ)) (dist : Portal → Portal → ℚ)
    (simplices : List (Nat × Nat × Nat)) (sol : Solution)
    (hsol : plan coords dist simplices = Except.ok sol) :
    sol = ⟨planSelected coords dist simplices, planFields coords dist simplices,
      ((planSelected coords dist simplices).map Link.ap).sum +
        ((planFields coords dist simplices).map Field.ap).sum,
      calcPathDistance dist (planPath coords dist simplices),
      planPath coords dist simplices⟩ := by
  by_cases h3 : (mkPortals coords).length < 3
  · simp only [plan, h3, if_true, Except.ok.injEq] at hsol
    simp only [planSelected, planFields, planUsed, planPath, h3, if_true]
    rw [← hsol]
    rfl
  · by_cases hne : (genPossibleLinks (mkPortals coords) dist simplices).isEmpty
    · simp only [plan, h3, hne, if_false, if_true, Except.ok.injEq] at hsol
      simp only [planSelected, planFields, planUsed, planPath, h3, hne, if_false, if_true]
      rw [← hsol]
      rfl
    · simp only [plan, h3, hne, Bool.not_eq_true, Bool.false_eq_true, if_false] at hsol
      simp only [planSelected, planFields, planUsed, planPath, h3, hne, Bool.not_eq_true,
        Bool.false_eq_true, if_false]
      simp only [greedyOptimize] at hsol
      cases hgp : genPath (greedySelect (sortCandidates
          (genPossibleLinks (mkPortals coords) dist simplices))) dist with
      | error e => rw [hgp] at hsol; cases hsol
      | ok p =>
        rw [hgp] at hsol
        simp only [Except.ok.injEq] at hsol
        rw [← hsol]

/-! C3 — geometry symmetry lemmas and the greedy non-crossing invariant. -/

/-- Cyclic permutation preserves the orientation sign. -/
theorem ccw_rot (A B C : ℚ × ℚ) : ccw A B C = ccw B C A := by
  simp only [ccw]
  rw [decide_eq_decide]
  have h : (C.2 - A.2) * (B.1 - A.1) - (B.2 - A.2) * (C.1 - A.1) =
      (A.2 - B.2) * (C.1 - B.1) - (C.2 - B.2) * (A.1 - B.1) := by ring
  constructor <;> intro hx <;> [linarith [h]; linarith [h]]

/-- The proper-crossing test is symmetric in the two segments. -/
theorem lineSegmentsIntersect_swap (A B C D : ℚ × ℚ) :
    lineSegmentsIntersect A B C D = lineSegmentsIntersect C D A B := by
  simp only [lineSegmentsIntersect]
  rw [ccw_rot C A B, ccw_rot D A B, ccw_rot C D A, ccw_rot D A C,
    ccw_rot C D B, ccw_rot D B C]
  exact (Bool.and_comm _ _).symm

/-- Endpoint sharing is symmetric. -/
theorem sharesPortal_symm (a b : Link) : sharesPortal a b = sharesPortal b a := by
  simp only [sharesPortal]
  rw [portalEq_symm b.portal1 a.portal1, portalEq_symm b.portal1 a.portal2,
    portalEq_symm b.portal2 a.portal1, portalEq_symm b.portal2 a.portal2]
  cases portalEq a.portal1 b.portal1 <;> cases portalEq a.portal1 b.portal2 <;>
    cases portalEq a.portal2 b.portal1 <;> cases portalEq a.portal2 b.portal2 <;> rfl

/-- `_check_link_intersection` is symmetric. -/
theorem checkLinkIntersection_symm (a b : Link) :
    checkLinkIntersection a b = checkLinkIntersection b a := by
  simp only [checkLinkIntersection, sharesPortal_symm a b]
  by_cases h : sharesPortal b a = true
  · simp [h]
  · simp only [Bool.not_eq_true] at h
    simp [h, lineSegmentsIntersect_swap]

/-- Every link shares its endpoints with itself. -/
theorem sharesPortal_refl (a : Link) : sharesPortal a a = true := by
  simp [sharesPortal, portalEq_refl]

/-- The greedy loop's invariant: the selected list is pairwise
non-intersecting under `_check_link_intersection` (both orders). -/
theorem greedySelect_pairwise (candidates : List Link) :
    (greedySelect candidates).Pairwise
      (fun a b => checkLinkIntersection a b = false ∧ checkLinkIntersection b a = false) := by
  suffices h : ∀ selected : List Link,
      selected.Pairwise
        (fun a b => checkLinkIntersection a b = false ∧ checkLinkIntersection b a = false) →
      (candidates.foldl
        (fun selected link =>
          if selected.any (fun ex => checkLinkIntersection link ex) then selected
          else selected ++ [link]) selected).Pairwise
        (fun a b => checkLinkIntersection a b = false ∧ checkLinkIntersection b a = false) by
    exact h [] List.Pairwise.nil
  induction candidates with
  | nil => intro selected hsel; exact hsel
  | cons link rest ih =>
    intro selected hsel
    simp only [List.foldl_cons]
    by_cases hany : selected.any (fun ex => checkLinkIntersection link ex) = true
    · rw [if_pos hany]; exact ih selected hsel
    · rw [if_neg hany]
      refine ih (selected ++ [link]) ?_
      rw [List.pairwise_append]
      refine ⟨hsel, List.pairwise_singleton _ _, ?_⟩
      intro a ha b hb
      rw [List.mem_singleton] at hb
      rw [hb]
      have hfalse : checkLinkIntersection link a = false := by
        rw [List.any_eq_true] at hany
        push_neg at hany
        have := hany a ha
        simpa using this
      exact ⟨by rw [checkLinkIntersection_symm]; exact hfalse, hfalse⟩

/-- `planSelected` always carries the pairwise invariant. -/
theorem planSelected_pairwise (coords : List (ℚ × ℚ)) (dist : Portal → Portal → ℚ)
    (simplices : List (Nat × Nat × Nat)) :
    (planSelected coords dist simplices).Pairwise
      (fun a b => checkLinkIntersection a b = false ∧ checkLinkIntersection b a = false) := by
  unfold planSelected
  by_cases h3 : (mkPortals coords).length < 3
  · simp [h3]
  · by_cases hne : (genPossibleLinks (mkPortals coords) dist simplices).isEmpty
    · simp [h3, hne]
    · simp only [h3, hne, Bool.false_eq_true, if_false]
      exact greedySelect_pairwise _

/-- C3: in every solution `plan` returns, two accepted links that do not
share an endpoint portal never properly cross (the `_line_segments_intersect`
orientation test on their four `(lon, lat)` endpoints is false), and links
sharing an endpoint are never treated as intersecting by
`_check_link_intersection`, whatever their geometry. -/
theorem plan_links_noncrossing (coords : List (ℚ × ℚ)) (dist : Portal → Portal → ℚ)
    (simplices : List (Nat × Nat × Nat)) (sol : Solution)
    (hsol : plan coords dist simplices = Except.ok sol) :
    (∀ l1 ∈ sol.links, ∀ l2 ∈ sol.links, sharesPortal l1 l2 = false →
      lineSegmentsIntersect (portalPoint l1.portal1) (portalPoint l1.portal2)
        (portalPoint l2.portal1) (portalPoint l2.portal2) = false) ∧
    (∀ l1 l2 : Link, sharesPortal l1 l2 = true →
      checkLinkIntersection l1 l2 = false) := by
  constructor
  · intro l1 h1 l2 h2 hshare
    have hlinks : sol.links = planSelected coords dist simplices := by
      rw [plan_ok_eq coords dist simplices sol hsol]
    rw [hlinks] at h1 h2
    have hpw := planSelected_pairwise coords dist simplices
    have hsym : Symmetric (fun a b : Link =>
        checkLinkIntersection a b = false ∧ checkLinkIntersection b a = false) :=
      fun a b h => ⟨h.2, h.1⟩
    have hne : l1 ≠ l2 := by
      intro heq
      subst heq
      rw [sharesPortal_refl] at hshare
      cases hshare
    have hchk := (hpw.forall hsym h1 h2 hne).1
    rw [checkLinkIntersection, if_neg (by rw [hshare]; exact Bool.false_ne_true)] at hchk
    exact hchk
  · intro l1 l2 hshare
    rw [checkLinkIntersection, if_pos hshare]

/-- C3 witness: in the rectangle run, accepted links 0 and 3 (the two short
horizontal edges) share no portal and do not cross. -/
theorem plan_links_noncrossing_witness :
    lineSegmentsIntersect (portalPoint L01.portal1) (portalPoint L01.portal2)
      (portalPoint L23.portal1) (portalPoint L23.portal2) = false :=
  (plan_links_noncrossing c0 d0 s0 sol0 plan_c0).1 L01 (by with_unfolding_all decide)
    L23 (by with_unfolding_all decide) (by with_unfolding_all decide)

/-! C5 — the ≤ 8 enclosed-point validity filter on fields. -/

/-- C5: the field list of every solution `plan` returns is exactly the
candidate triangles of `_generate_fields` over the accepted links, filtered
by `_count_points_in_field` over the used portals being at most 8 (vertices
excluded, boundary counting as inside); hence every surviving field encloses
at most 8 used portals, and every candidate triangle whose count exceeds 8
is discarded. -/
theorem plan_fields_capped (coords : List (ℚ × ℚ)) (dist : Portal → Portal → ℚ)
    (simplices : List (Nat × Nat × Nat)) (sol : Solution)
    (hsol : plan coords dist simplices = Except.ok sol) :
    sol.fields = (generateFields (planSelected coords dist simplices)).filter
      (fun f => decide (countPointsInField f (planUsed coords dist simplices) ≤ 8)) ∧
    ∀ f ∈ sol.fields, countPointsInField f (planUsed coords dist simplices) ≤ 8 := by
  have hfe : sol.fields = (generateFields (planSelected coords dist simplices)).filter
      (fun f => decide (countPointsInField f (planUsed coords dist simplices) ≤ 8)) := by
    rw [plan_ok_eq coords dist simplices sol hsol]
    rfl
  refine ⟨hfe, ?_⟩
  intro f hf
  rw [hfe] at hf
  have := List.of_mem_filter hf
  simpa using this

/-- C5 witness: the rectangle run keeps both candidate fields, each enclosing
no used portal. -/
theorem plan_fields_capped_witness :
    sol0.fields = (generateFields (planSelected c0 d0 s0)).filter
      (fun f => decide (countPointsInField f (planUsed c0 d0 s0) ≤ 8)) :=
  (plan_fields_capped c0 d0 s0 sol0 plan_c0).1

/-! C6 — the solution total is the link-score sum plus the field-score sum. -/

/-- C6: every solution `plan` returns totals exactly the sum of its links'
bracket scores plus the sum of its fields' scores, and every field scores the
fixed constant `FIELD_AP = 1250`. -/
theorem plan_total_ap_sum (coords : List (ℚ × ℚ)) (dist : Portal → Portal → ℚ)
    (simplices : List (Nat × Nat × Nat)) (sol : Solution)
    (hsol : plan coords dist simplices = Except.ok sol) :
    sol.total_ap = (sol.links.map Link.ap).sum + (sol.fields.map Field.ap).sum ∧
    ∀ f : Field, Field.ap f = 1250 := by
  refine ⟨?_, fun f => rfl⟩
  rw [plan_ok_eq coords dist simplices sol hsol]

/-- C6 witness: the rectangle run totals 2500 = 0 (five sub-kilometer links)
plus 2 × 1250. -/
theorem plan_total_ap_sum_witness :
    sol0.total_ap = (sol0.links.map Link.ap).sum + (sol0.fields.map Field.ap).sum :=
  (plan_total_ap_sum c0 d0 s0 sol0 plan_c0).1

/-! C10 — the path-building walk terminates and never raises. The lemmas
below show every `next(…)` lookup in the walk succeeds (the adjacency map is
built from the very link list the lookup searches) and that `links.length`
fuel is exact because each iteration traverses one more link. -/

theorem graphGet_graphAdd (g : List (Portal × List Portal)) (k v a b : Portal)
    (h : b ∈ graphGet (graphAdd g k v) a) :
    b ∈ graphGet g a ∨ (portalEq k a = true ∧ b = v) := by
  induction g with
  | nil =>
    simp only [graphAdd, graphGet] at h
    by_cases hk : portalEq k a = true
    · rw [if_pos hk] at h
      right
      exact ⟨hk, by simpa using h⟩
    · rw [if_neg hk] at h
      cases h
  | cons kv rest ih =>
    simp only [graphAdd] at h
    by_cases hkk : portalEq kv.1 k = true
    · rw [if_pos hkk] at h
      simp only [graphGet] at h ⊢
      by_cases hka : portalEq kv.1 a = true
      · rw [if_pos hka] at h ⊢
        rcases List.mem_append.mp h with h1 | h1
        · left; exact h1
        · right
          have hk : portalEq k a = true := by
            have h2 : portalEq k kv.1 = true := by rw [portalEq_symm]; exact hkk
            exact portalEq_trans h2 hka
          exact ⟨hk, by simpa using h1⟩
      · rw [if_neg hka] at h ⊢
        left; exact h
    · rw [if_neg hkk] at h
      simp only [graphGet] at h ⊢
      by_cases hka : portalEq kv.1 a = true
      · rw [if_pos hka] at h ⊢
        left; exact h
      · rw [if_neg hka] at h ⊢
        exact ih h

theorem buildGraph_mem (links : List Link) (a b : Portal)
    (h : b ∈ graphGet (buildGraph links) a) :
    ∃ l ∈ links, (portalEq l.portal1 a = true ∧ b = l.portal2) ∨
      (portalEq l.portal2 a = true ∧ b = l.portal1) := by
  suffices hsuf : ∀ g : List (Portal × List Portal),
      b ∈ graphGet (links.foldl
        (fun g l => graphAdd (graphAdd g l.portal1 l.portal2) l.portal2 l.portal1) g) a →
      b ∈ graphGet g a ∨ ∃ l ∈ links,
        (portalEq l.portal1 a = true ∧ b = l.portal2) ∨
        (portalEq l.portal2 a = true ∧ b = l.portal1) by
    rcases hsuf [] h with h1 | h1
    · cases h1
    · exact h1
  clear h
  induction links with
  | nil => intro g hg; left; exact hg
  | cons l ls ih =>
    intro g hg
    simp only [List.foldl_cons] at hg
    rcases ih _ hg with h1 | h1
    · rcases graphGet_graphAdd _ _ _ _ _ h1 with h2 | h2
      · rcases graphGet_graphAdd _ _ _ _ _ h2 with h3 | h3
        · left; exact h3
        · right; exact ⟨l, List.mem_cons_self _ _, Or.inl h3⟩
      · right; exact ⟨l, List.mem_cons_self _ _, Or.inr h2⟩
    · right
      obtain ⟨m, hm, hcond⟩ := h1
      exact ⟨m, List.mem_cons_of_mem _ hm, hcond⟩

theorem findLink_isSome (links : List Link) (a b : Portal)
    (h : b ∈ graphGet (buildGraph links) a) : (findLink links a b).isSome = true := by
  obtain ⟨l, hl, hcond⟩ := buildGraph_mem links a b h
  rw [findLink, List.find?_isSome]
  refine ⟨l, hl, ?_⟩
  rcases hcond with ⟨h1, h2⟩ | ⟨h1, h2⟩
  · subst h2; simp [h1, portalEq_refl]
  · subst h2; simp [h1, portalEq_refl]

theorem pickBest_ok (links : List Link) (dist : Portal → Portal → ℚ)
    (visited : List Link) (current : Portal) (nbrs : List Portal)
    (best : Option (Portal × Link × ℚ))
    (hn : ∀ x ∈ nbrs, (findLink links current x).isSome = true) :
    ∃ r, pickBest links dist visited current nbrs best = Except.ok r := by
  induction nbrs generalizing best with
  | nil => exact ⟨best, rfl⟩
  | cons n rest ih =>
    obtain ⟨link, hlink⟩ := Option.isSome_iff_exists.mp (hn n (List.mem_cons_self _ _))
    have hrest : ∀ x ∈ rest, (findLink links current x).isSome = true :=
      fun x hx => hn x (List.mem_cons_of_mem _ hx)
    simp only [pickBest, hlink]
    by_cases hv : visited.any (fun v => linkEq v link) = true
    · rw [if_pos hv]; exact ih best hrest
    · rw [if_neg hv]; exact ih _ hrest

theorem pickFallback_ok (links : List Link) (visited : List Link) (current : Portal)
    (nbrs : List Portal)
    (hn : ∀ x ∈ nbrs, (findLink links current x).isSome = true) :
    ∃ r, pickFallback links visited current nbrs = Except.ok r := by
  induction nbrs with
  | nil => exact ⟨none, rfl⟩
  | cons n rest ih =>
    obtain ⟨link, hlink⟩ := Option.isSome_iff_exists.mp (hn n (List.mem_cons_self _ _))
    have hrest : ∀ x ∈ rest, (findLink links current x).isSome = true :=
      fun x hx => hn x (List.mem_cons_of_mem _ hx)
    simp only [pickFallback, hlink]
    by_cases hv : visited.any (fun v => linkEq v link) = true
    · rw [if_pos hv]; exact ih hrest
    · rw [if_neg hv]; exact ⟨some (n, link), rfl⟩

theorem walkLoop_ok (links : List Link) (dist : Portal → Portal → ℚ)
    (fuel : Nat) (visited : List Link) (current : Portal) (path : List Portal)
    (hfuel : fuel + visited.length = links.length) :
    ∃ p, walkLoop links dist (buildGraph links) fuel visited current path =
      Except.ok p := by
  induction fuel generalizing visited current path with
  | zero =>
    refine ⟨path, ?_⟩
    simp only [walkLoop]
    rw [if_neg (by omega)]
  | succ fuel ih =>
    simp only [walkLoop]
    by_cases hlt : visited.length < links.length
    · rw [if_pos hlt]
      have hn : ∀ x ∈ graphGet (buildGraph links) current,
          (findLink links current x).isSome = true :=
        fun x hx => findLink_isSome links current x hx
      obtain ⟨r, hr⟩ := pickBest_ok links dist visited current _ none hn
      rw [hr]
      cases r with
      | some t =>
        obtain ⟨nxt, link, d⟩ := t
        exact ih (visited ++ [link]) nxt (path ++ [nxt]) (by simp at hfuel ⊢; omega)
      | none =>
        obtain ⟨r2, hr2⟩ := pickFallback_ok links visited current _ hn
        rw [hr2]
        cases r2 with
        | some t =>
          obtain ⟨nxt, link⟩ := t
          exact ih (visited ++ [link]) nxt (path ++ [nxt]) (by simp at hfuel ⊢; omega)
        | none => exact ⟨path, rfl⟩
    · rw [if_neg hlt]
      exact ⟨path, rfl⟩

theorem graphAdd_ne_nil (g : List (Portal × List Portal)) (k v : Portal) :
    graphAdd g k v ≠ [] := by
  cases g with
  | nil => simp [graphAdd]
  | cons kv rest =>
    simp only [graphAdd]
    split <;> simp

theorem buildGraph_ne_nil (l : Link) (ls : List Link) : buildGraph (l :: ls) ≠ [] := by
  suffices hsuf : ∀ (links : List Link) (g : List (Portal × List Portal)), g ≠ [] →
      links.foldl
        (fun g l => graphAdd (graphAdd g l.portal1 l.portal2) l.portal2 l.portal1) g ≠ [] by
    exact hsuf ls _ (graphAdd_ne_nil _ _ _)
  intro links
  induction links with
  | nil => intro g hg; exact hg
  | cons m ms ih =>
    intro g _
    simp only [List.foldl_cons]
    exact ih _ (graphAdd_ne_nil _ _ _)

theorem minKey_isSome (g : List (Portal × List Portal)) (hg : g ≠ []) :
    (minKey g).isSome = true := by
  cases g with
  | nil => exact absurd rfl hg
  | cons kv rest =>
    rw [minKey]
    suffices hsuf : ∀ (t : List (Portal × List Portal)) (b : Portal × List Portal),
        (t.foldl
          (fun best kv =>
            match best with
            | none => some kv
            | some b => if kv.2.length < b.2.length then some kv else some b)
          (some b)).isSome = true by
      simp only [List.foldl_cons]
      obtain ⟨v, hv⟩ := Option.isSome_iff_exists.mp (hsuf rest kv)
      rw [hv]
      rfl
    intro t
    induction t with
    | nil => intro b; rfl
    | cons kv2 rest2 ih =>
      intro b
      simp only [List.foldl_cons]
      by_cases h : kv2.2.length < b.2.length
      · rw [if_pos h]; exact ih kv2
      · rw [if_neg h]; exact ih b

/-- `_generate_path` always returns a path, never an error: the start-portal
minimum exists whenever links do, the adjacency lookups always find their
link, and the walk strictly shrinks the untraversed set or exits. -/
theorem genPath_ok (links : List Link) (dist : Portal → Portal → ℚ) :
    ∃ p, genPath links dist = Except.ok p := by
  cases links with
  | nil => exact ⟨[], rfl⟩
  | cons l ls =>
    obtain ⟨kv, hkv⟩ := Option.isSome_iff_exists.mp
      (minKey_isSome (buildGraph (l :: ls)) (buildGraph_ne_nil l ls))
    simp only [genPath, List.isEmpty_cons, hkv]
    exact walkLoop_ok (l :: ls) dist (l :: ls).length [] kv [kv] (by simp)

/-- Any best candidate `pickBest` settles on is untraversed: each loop
iteration of the walk can only mark a previously untraversed link. -/
theorem pickBest_untraversed (links : List Link) (dist : Portal → Portal → ℚ)
    (visited : List Link) (current : Portal) :
    ∀ (nbrs : List Portal) (best r : Option (Portal × Link × ℚ)),
    (∀ nxt link d, best = some (nxt, link, d) →
      visited.all (fun v => !linkEq v link) = true) →
    pickBest links dist visited current nbrs best = Except.ok r →
    ∀ nxt link d, r = some (nxt, link, d) →
      visited.all (fun v => !linkEq v link) = true := by
  intro nbrs
  induction nbrs with
  | nil =>
    intro best r hbest hrun
    simp only [pickBest, Except.ok.injEq] at hrun
    rw [← hrun]
    exact hbest
  | cons n rest ih =>
    intro best r hbest hrun
    simp only [pickBest] at hrun
    cases hfind : findLink links current n with
    | none => simp only [hfind] at hrun; cases hrun
    | some link0 =>
      simp only [hfind] at hrun
      by_cases hv : visited.any (fun v => linkEq v link0) = true
      · rw [if_pos hv] at hrun
        exact ih best r hbest hrun
      · rw [if_neg hv] at hrun
        have hfresh0 : visited.all (fun v => !linkEq v link0) = true := by
          rw [List.all_eq_true]
          intro v hvv
          rw [List.any_eq_true] at hv
          push_neg at hv
          simpa using hv v hvv
        refine ih _ r ?_ hrun
        intro nxt link d hsome
        cases best with
        | none =>
          simp only [Option.some.injEq, Prod.mk.injEq] at hsome
          rw [← hsome.2.1]
          exact hfresh0
        | some b =>
          by_cases hd : dist current n < b.2.2
          · simp only [if_pos hd, Option.some.injEq, Prod.mk.injEq] at hsome
            rw [← hsome.2.1]
            exact hfresh0
          · simp only [if_neg hd] at hsome
            exact hbest nxt link d hsome

/-- C10: for every duplicate-free link list (duplicates judged by
`Link.__eq__`) and any distance oracle, `_generate_path` terminates with a
path and never raises — even on a disconnected graph it returns the partial
path built so far — and every link the nearest-neighbor scan picks is
previously untraversed, so each loop iteration strictly shrinks the
untraversed set or exits. -/
theorem genPath_terminates (links : List Link) (dist : Portal → Portal → ℚ)
    (_hnd : links.Pairwise (fun a b => linkEq a b = false)) :
    (genPath links dist).isOk = true ∧
    (∀ (visited : List Link) (current nxt : Portal) (link : Link) (d : ℚ),
      pickBest links dist visited current (graphGet (buildGraph links) current) none =
        Except.ok (some (nxt, link, d)) →
      visited.all (fun v => !linkEq v link) = true) := by
  constructor
  · obtain ⟨p, hp⟩ := genPath_ok links dist
    rw [hp]
    rfl
  · intro visited current nxt link d hrun
    exact pickBest_untraversed links dist visited current _ none _
      (fun _ _ _ h => by cases h) hrun nxt link d rfl

/-- C10 witness: a two-component disconnected link list still yields a path
without error. -/
theorem genPath_terminates_witness :
    (genPath [⟨P0, P1, 5⟩, ⟨P2, P3, 7⟩] d0).isOk = true :=
  (genPath_terminates [⟨P0, P1, 5⟩, ⟨P2, P3, 7⟩] d0 (by with_unfolding_all decide)).1

/-! C7 — the multi-agent partition: `num_agents` contiguous slices in
original order, sizes `links_per_agent` plus one extra for the first
`remainder` agents. -/

/-- The total slice size the loop hands to agents `i, i+1, …, i+rem-1`. -/
def numsSum (q r : ℤ) : Nat → Nat → Nat
  | _, 0 => 0
  | i, rem + 1 => (q + if (i : ℤ) < r then 1 else 0).toNat + numsSum q r (i + 1) rem

theorem numsSum_eval (q r : ℤ) (hq : 0 ≤ q) (hr : 0 ≤ r) :
    ∀ rem i, numsSum q r i rem =
      rem * q.toNat + (min r.toNat (i + rem) - min r.toNat i) := by
  intro rem
  induction rem with
  | zero => intro i; simp [numsSum]
  | succ rem ih =>
    intro i
    rw [numsSum, ih (i + 1)]
    have hmul : (rem + 1) * q.toNat = rem * q.toNat + q.toNat := by ring
    rw [hmul]
    by_cases hir : (i : ℤ) < r
    · rw [if_pos hir]
      have h2 : i < r.toNat := by omega
      have h1 : (q + 1).toNat = q.toNat + 1 := by omega
      rw [h1]
      generalize rem * q.toNat = A
      omega
    · rw [if_neg hir]
      have h2 : ¬i < r.toNat := by omega
      have h1 : (q + 0).toNat = q.toNat := by omega
      rw [h1]
      generalize rem * q.toNat = A
      omega

theorem agentsLoop_spec (dist : Portal → Portal → ℚ) (fields : List Field)
    (links : List Link) (q r : ℤ) :
    ∀ (rem i start : Nat), start + numsSum q r i rem = links.length →
    ∃ plans, agentsLoop dist fields links q r rem i start = Except.ok plans ∧
      plans.length = rem ∧
      (plans.map (fun p => p.links)).flatten =
        (links.drop start).take (numsSum q r i rem) ∧
      ∀ k, k < rem → (plans.getD k default).links.length =
        (q + if ((i + k : Nat) : ℤ) < r then 1 else 0).toNat := by
  intro rem
  induction rem with
  | zero =>
    intro i start _
    refine ⟨[], rfl, rfl, by simp [numsSum], ?_⟩
    intro k hk
    omega
  | succ rem ih =>
    intro i start hsum
    have hsumrw : numsSum q r i (rem + 1) =
        (q + if (i : ℤ) < r then 1 else 0).toNat + numsSum q r (i + 1) rem := rfl
    obtain ⟨pth, hpth⟩ := genPath_ok
      ((links.drop start).take ((q + if (i : ℤ) < r then 1 else 0).toNat)) dist
    have hsum2 : (start + (q + if (i : ℤ) < r then 1 else 0).toNat) +
        numsSum q r (i + 1) rem = links.length := by
      rw [hsumrw] at hsum
      omega
    obtain ⟨plans2, hrun2, hlen2, hflat2, hgetd2⟩ := ih (i + 1)
      (start + (q + if (i : ℤ) < r then 1 else 0).toNat) hsum2
    have hb : ∃ ap : AgentPlan,
        buildAgentPlan dist fields
          ((links.drop start).take ((q + if (i : ℤ) < r then 1 else 0).toNat)) =
          Except.ok ap ∧
        ap.links = (links.drop start).take ((q + if (i : ℤ) < r then 1 else 0).toNat) := by
      simp only [buildAgentPlan, hpth]
      exact ⟨_, rfl, rfl⟩
    obtain ⟨ap, hap, haplinks⟩ := hb
    refine ⟨ap :: plans2, ?_, by simp [hlen2], ?_, ?_⟩
    · simp only [agentsLoop, hap, hrun2]
    · simp only [List.map_cons, List.flatten_cons, hflat2, hsumrw, haplinks]
      rw [List.take_add]
      congr 1
      rw [List.drop_drop]
    · intro k hk
      cases k with
      | zero =>
        simp only [List.getD_cons_zero]
        rw [haplinks, List.length_take, List.length_drop]
        have hfit : (q + if (i : ℤ) < r then 1 else 0).toNat ≤ links.length - start := by
          rw [hsumrw] at hsum
          omega
        simp only [Nat.add_zero]
        omega
      | succ k =>
        simp only [List.getD_cons_succ]
        have hx := hgetd2 k (by omega)
        have hidx : (i + 1) + k = i + (k + 1) := by omega
        rw [hidx] at hx
        exact hx

/-- C7: on any solution with at least one link and any agent count ≥ 1, the
partitioner succeeds and splits the link list into exactly `num_agents`
contiguous slices in original order — their concatenation is the original
list, their sizes sum to the link count, slice `k` has
`len // num_agents` links plus one extra exactly when `k < len % num_agents`
(the remainder goes to the first slices), so any two slice sizes differ by at
most 1. -/
theorem multi_agent_partition (dist : Portal → Portal → ℚ) (sol : Solution)
    (n : ℤ) (hK : sol.links ≠ []) (hn : 1 ≤ n) :
    ∃ m : MultiAgentSolution, multiAgentPlanOf dist sol n = Except.ok m ∧
      (m.agent_plans.length : ℤ) = n ∧
      (m.agent_plans.map (fun p => p.links)).flatten = sol.links ∧
      (m.agent_plans.map (fun p => p.links.length)).sum = sol.links.length ∧
      (∀ k, k < m.agent_plans.length →
        (m.agent_plans.getD k default).links.length =
          sol.links.length / n.toNat +
            if k < sol.links.length % n.toNat then 1 else 0) ∧
      (∀ j k, j < m.agent_plans.length → k < m.agent_plans.length →
        (m.agent_plans.getD j default).links.length ≤
          (m.agent_plans.getD k default).links.length + 1) := by
  have hn0 : (0 : ℤ) ≤ n := by omega
  have hnpos : (0 : ℤ) < n := by omega
  set K : ℤ := (sol.links.length : ℤ) with hKdef
  have hK0 : (0 : ℤ) ≤ K := by positivity
  have hq0 : 0 ≤ Int.fdiv K n := by
    rw [Int.fdiv_eq_ediv _ hn0]
    exact Int.ediv_nonneg hK0 hn0
  have hr0 : 0 ≤ Int.fmod K n := by
    rw [Int.fmod_eq_emod _ hn0]
    exact Int.emod_nonneg _ (by omega)
  have hrn : Int.fmod K n < n := by
    rw [Int.fmod_eq_emod _ hn0]
    exact Int.emod_lt_of_pos _ hnpos
  have hiden : n * (Int.fdiv K n) + Int.fmod K n = K := by
    rw [Int.fdiv_eq_ediv _ hn0, Int.fmod_eq_emod _ hn0]
    exact Int.ediv_add_emod _ _
  have hprod : ((n.toNat * (Int.fdiv K n).toNat : ℕ) : ℤ) = n * Int.fdiv K n := by
    push_cast
    rw [Int.toNat_of_nonneg hn0, Int.toNat_of_nonneg hq0]
  have htot : numsSum (Int.fdiv K n) (Int.fmod K n) 0 n.toNat = sol.links.length := by
    rw [numsSum_eval _ _ hq0 hr0]
    have hminz : min (Int.fmod K n).toNat 0 = 0 := by omega
    have hminn : min (Int.fmod K n).toNat (0 + n.toNat) = (Int.fmod K n).toNat := by
      omega
    rw [hminz, hminn]
    have hmulc : n.toNat * (Int.fdiv K n).toNat = (Int.fdiv K n).toNat * n.toNat := by
      ring
    omega
  obtain ⟨plans, hrun, hlen, hflat, hgetd⟩ :=
    agentsLoop_spec dist sol.fields sol.links (Int.fdiv K n) (Int.fmod K n)
      n.toNat 0 0 (by rw [htot]; omega)
  have hemp : sol.links.isEmpty = false := List.isEmpty_eq_false.mpr hK
  have hdivmod : sol.links.length / n.toNat = (Int.fdiv K n).toNat ∧
      sol.links.length % n.toNat = (Int.fmod K n).toNat := by
    rw [Nat.div_mod_unique (by omega)]
    constructor
    · omega
    · omega
  refine ⟨⟨plans, sol.total_ap⟩, ?_, ?_, ?_, ?_, ?_, ?_⟩
  · simp only [multiAgentPlanOf, hemp, Bool.false_eq_true, if_false,
      if_neg (by omega : ¬n = 0), ← hKdef, hrun]
  · show ((plans.length : ℕ) : ℤ) = n
    rw [hlen, Int.toNat_of_nonneg hn0]
  · show (plans.map (fun p => p.links)).flatten = sol.links
    rw [hflat, htot, List.drop_zero, List.take_length]
  · show (plans.map (fun p => p.links.length)).sum = sol.links.length
    have hlenflat := congrArg List.length hflat
    rw [List.length_flatten, List.map_map] at hlenflat
    rw [htot, List.drop_zero, List.take_length] at hlenflat
    exact hlenflat
  · intro k hk
    show (plans.getD k default).links.length = _
    rw [hlen] at hk
    have hx := hgetd k hk
    simp only [Nat.zero_add] at hx
    rw [hx, hdivmod.1, hdivmod.2]
    by_cases hkr : ((k : ℕ) : ℤ) < Int.fmod K n
    · rw [if_pos hkr, if_pos (by omega)]
      omega
    · rw [if_neg hkr, if_neg (by omega)]
      omega
  · intro j k hj hk
    show (plans.getD j default).links.length ≤ (plans.getD k default).links.length + 1
    rw [hlen] at hj hk
    have hxj := hgetd j hj
    have hxk := hgetd k hk
    simp only [Nat.zero_add] at hxj hxk
    rw [hxj, hxk]
    by_cases h1 : ((j : ℕ) : ℤ) < Int.fmod K n <;>
      by_cases h2 : ((k : ℕ) : ℤ) < Int.fmod K n <;>
      simp only [h1, h2, if_pos, if_neg, if_true, if_false] <;> omega

/-- C7 witness: a three-link solution split over two agents partitions
without error. -/
theorem multi_agent_partition_witness :
    (multiAgentPlanOf d0 ⟨[L01, L02, L23], [], 0, 0, []⟩ 2).isOk = true := by
  obtain ⟨m, hm, _⟩ := multi_agent_partition d0 ⟨[L01, L02, L23], [], 0, 0, []⟩ 2
    (by with_unfolding_all decide) (by omega)
  rw [hm]
  rfl

/-! C8 — the `name,lat,lon` text round trip. -/

theorem splitOnChar_no_sep (sep : Char) (xs : List Char) (h : ∀ c ∈ xs, c ≠ sep) :
    splitOnChar sep xs = [xs] := by
  induction xs with
  | nil => rfl
  | cons c cs ih =>
    have hc : c ≠ sep := h c (List.mem_cons_self _ _)
    simp only [splitOnChar, if_neg hc]
    rw [ih (fun x hx => h x (List.mem_cons_of_mem _ hx))]

theorem splitOnChar_append (sep : Char) (xs ys : List Char) (h : ∀ c ∈ xs, c ≠ sep) :
    splitOnChar sep (xs ++ sep :: ys) = xs :: splitOnChar sep ys := by
  induction xs with
  | nil => simp [splitOnChar]
  | cons c cs ih =>
    have hc : c ≠ sep := h c (List.mem_cons_self _ _)
    simp only [List.cons_append, splitOnChar, if_neg hc, List.append_eq]
    rw [ih (fun x hx => h x (List.mem_cons_of_mem _ hx))]

theorem splitOnChar_joinLines (lines : List (List Char))
    (h : ∀ l ∈ lines, ∀ c ∈ l, c ≠ '\n') :
    splitOnChar '\n' (joinLines lines) = lines ++ [[]] := by
  induction lines with
  | nil => rfl
  | cons l ls ih =>
    simp only [joinLines]
    rw [splitOnChar_append _ _ _ (h l (List.mem_cons_self _ _)),
      ih (fun m hm => h m (List.mem_cons_of_mem _ hm))]
    rfl

theorem dropWhile_eq_self_of_head (p : Char → Bool) (l : List Char)
    (h : ∀ c, l.head? = some c → p c = false) : l.dropWhile p = l := by
  cases l with
  | nil => rfl
  | cons c cs =>
    have hc := h c rfl
    simp [List.dropWhile_cons, hc]

theorem pyStrip_eq_self (l : List Char)
    (h1 : ∀ c, l.head? = some c → isPySpace c = false)
    (h2 : ∀ c, l.getLast? = some c → isPySpace c = false) : pyStrip l = l := by
  rw [pyStrip, dropWhile_eq_self_of_head _ _ h1,
    dropWhile_eq_self_of_head _ _ (by rw [List.head?_reverse]; exact h2),
    List.reverse_reverse]

/-- The numeric-field conditions the round trip needs from the coordinate
serialization: a nonempty token with no comma and no whitespace character
(Python's `str(float)` output — digits, sign, point, exponent — satisfies
all of them). -/
def goodNum (l : List Char) : Prop :=
  l ≠ [] ∧ ∀ c ∈ l, c ≠ ',' ∧ isPySpace c = false

/-- The name conditions the round trip needs: no comma (the line would split
into extra fields), no newline or carriage return (the line would split in
the file), and a first character that is neither `'#'` (the line would parse
as a comment) nor whitespace (`strip` would alter the name). -/
def goodName (l : List Char) : Prop :=
  (∀ c ∈ l, c ≠ ',' ∧ c ≠ '\n' ∧ c ≠ '\r') ∧
  ∀ c, l.head? = some c → c ≠ '#' ∧ isPySpace c = false

instance (l : List Char) : Decidable (goodNum l) := by
  unfold goodNum
  infer_instance

instance (l : List Char) : Decidable (goodName l) := by
  unfold goodName
  infer_instance

theorem loadLine_portal (parseF : List Char → Option ℚ) (fmt : ℚ → List Char)
    (acc : List Portal) (nm : List Char) (la lo : ℚ)
    (hp1 : parseF (fmt la) = some la) (hp2 : parseF (fmt lo) = some lo)
    (hn1 : goodNum (fmt la)) (hn2 : goodNum (fmt lo)) (hnm : goodName nm) :
    loadLine parseF acc (nm ++ ',' :: fmt la ++ ',' :: fmt lo) =
      acc ++ [⟨acc.length, some (String.mk nm), la, lo⟩] := by
  have hheadok : isPySpace (nm.headD ',') = false ∧ nm.headD ',' ≠ '#' := by
    cases nm with
    | nil => exact ⟨by decide, by decide⟩
    | cons c cs =>
      have hc := hnm.2 c rfl
      exact ⟨hc.2, hc.1⟩
  have hstrip : pyStrip (nm ++ ',' :: fmt la ++ ',' :: fmt lo) =
      nm ++ ',' :: fmt la ++ ',' :: fmt lo := by
    refine pyStrip_eq_self _ ?_ ?_
    · intro c hc
      have hh : (nm ++ ',' :: fmt la ++ ',' :: fmt lo).head? = some (nm.headD ',') := by
        cases nm <;> rfl
      rw [hh] at hc
      injection hc with hc
      rw [← hc]
      exact hheadok.1
    · intro c hc
      have hsplit : nm ++ ',' :: fmt la ++ ',' :: fmt lo =
          (nm ++ ',' :: fmt la ++ [',']) ++ fmt lo := by
        simp
      rw [hsplit, List.getLast?_append_of_ne_nil _ hn2.1] at hc
      have hcm : c ∈ fmt lo := by
        obtain ⟨hh, hx⟩ := List.mem_getLast?_eq_getLast (Option.mem_def.mpr hc)
        rw [hx]
        exact List.getLast_mem hh
      exact (hn2.2 c hcm).2
  have hsplit3 : splitOnChar ',' (nm ++ ',' :: fmt la ++ ',' :: fmt lo) =
      [nm, fmt la, fmt lo] := by
    have hassoc : nm ++ ',' :: fmt la ++ ',' :: fmt lo =
        nm ++ ',' :: (fmt la ++ ',' :: fmt lo) := by
      simp
    rw [hassoc, splitOnChar_append _ _ _ (fun c hc => (hnm.1 c hc).1),
      splitOnChar_append _ _ _ (fun c hc => (hn1.2 c hc).1),
      splitOnChar_no_sep _ _ (fun c hc => (hn2.2 c hc).1)]
  have hne : (nm ++ ',' :: fmt la ++ ',' :: fmt lo).isEmpty = false := by
    cases nm <;> rfl
  have hheadd : (nm ++ ',' :: fmt la ++ ',' :: fmt lo).headD ' ' = nm.headD ',' := by
    cases nm <;> rfl
  rw [loadLine]
  simp only [hstrip, hne, Bool.false_eq_true, if_false, hheadd,
    if_neg hheadok.2, hsplit3]
  norm_num
  rw [hp1, hp2]

theorem loadLine_nil (parseF : List Char → Option ℚ) (acc : List Portal) :
    loadLine parseF acc [] = acc := rfl

theorem loadLines_portals (parseF : List Char → Option ℚ) (fmt : ℚ → List Char)
    (ps : List (String × ℚ × ℚ))
    (hfmt : ∀ t ∈ ps, parseF (fmt t.2.1) = some t.2.1 ∧ parseF (fmt t.2.2) = some t.2.2 ∧
      goodNum (fmt t.2.1) ∧ goodNum (fmt t.2.2))
    (hname : ∀ t ∈ ps, goodName t.1.data) :
    ∀ acc : List Portal,
      ((ps.map (fun t : String × ℚ × ℚ => t.1.data ++ ',' :: fmt t.2.1 ++ ',' :: fmt t.2.2)) ++
        [[]]).foldl
        (loadLine parseF) acc = acc ++ portalsFromIdx acc.length ps := by
  induction ps with
  | nil =>
    intro acc
    simp [loadLine_nil, portalsFromIdx]
  | cons t ts ih =>
    intro acc
    have ht := hfmt t (List.mem_cons_self _ _)
    have htn := hname t (List.mem_cons_self _ _)
    simp only [List.map_cons, List.cons_append, List.foldl_cons]
    rw [loadLine_portal parseF fmt acc t.1.data t.2.1 t.2.2 ht.1 ht.2.1 ht.2.2.1 ht.2.2.2 htn]
    rw [ih (fun x hx => hfmt x (List.mem_cons_of_mem _ hx))
      (fun x hx => hname x (List.mem_cons_of_mem _ hx))]
    simp only [List.length_append, List.length_cons, List.length_nil]
    rw [List.append_assoc]
    rfl

/-- C8 (amended): the `name,lat,lon` round trip holds for every portal list
whose names contain no comma, newline or carriage return and do not begin
with `'#'` or whitespace, and whose coordinate serialization is a nonempty
comma-free whitespace-free token parsing back to the exact value (Python's
`str`/`float` pair guarantees the latter): reloading the saved text yields
exactly the portals, names and coordinates intact, ids reassigned by line
position, with the header comment lines and blank line ignored. -/
theorem save_load_roundtrip_amended (fmt : ℚ → List Char)
    (parseF : List Char → Option ℚ) (ps : List (String × ℚ × ℚ))
    (hfmt : ∀ t ∈ ps, parseF (fmt t.2.1) = some t.2.1 ∧ parseF (fmt t.2.2) = some t.2.2 ∧
      goodNum (fmt t.2.1) ∧ goodNum (fmt t.2.2))
    (hname : ∀ t ∈ ps, goodName t.1.data) :
    loadPortalsFromContent parseF (saveFileContent fmt ps) = portalsFromIdx 0 ps := by
  have hnolf : ∀ l ∈ saveLines fmt ps, ∀ c ∈ l, c ≠ '\n' := by
    intro l hl
    rw [saveLines] at hl
    rcases List.mem_cons.mp hl with h | hl
    · subst h; decide
    rcases List.mem_cons.mp hl with h | hl
    · subst h; decide
    rcases List.mem_cons.mp hl with h | hl
    · subst h; intro c hc; cases hc
    obtain ⟨t, ht, hteq⟩ := List.mem_map.mp hl
    subst hteq
    intro c hc
    have hfm := hfmt t ht
    have hna := hname t ht
    simp only [List.mem_append, List.mem_cons] at hc
    rcases hc with (hc | hc | hc) | hc | hc
    · exact (hna.1 c hc).2.1
    · subst hc; decide
    · intro hlf
      subst hlf
      exact absurd (hfm.2.2.1.2 _ hc).2 (by decide)
    · subst hc; decide
    · intro hlf
      subst hlf
      exact absurd (hfm.2.2.2.2 _ hc).2 (by decide)
  rw [loadPortalsFromContent, saveFileContent, splitOnChar_joinLines _ hnolf, saveLines]
  simp only [List.cons_append, List.foldl_cons]
  rw [show loadLine parseF [] ("# Portal坐标文件".data) = [] from rfl,
    show loadLine parseF [] ("# 格式：name,lat,lon".data) = [] from rfl,
    loadLine_nil]
  have := loadLines_portals parseF fmt ps hfmt hname []
  simpa using this

/-- C8 counterexample: the round trip fails as universally stated — a portal
named `"a,b"` serializes to the line `a,b,1,2`, which reloads as four fields
whose third is not numeric, so the loader skips the line (Python's
`ValueError` path) and the portal is lost. -/
theorem save_load_roundtrip_cex :
    ¬ loadPortalsFromContent parseIntChars (saveFileContent fmtInt [("a,b", 1, 2)]) =
      portalsFromIdx 0 [("a,b", 1, 2)] := by
  with_unfolding_all decide

/-- C8 witness: two well-formed portals round-trip exactly. -/
theorem save_load_roundtrip_amended_witness :
    loadPortalsFromContent parseIntChars
        (saveFileContent fmtInt [("A", 1, 2), ("B", 3, 4)]) =
      portalsFromIdx 0 [("A", 1, 2), ("B", 3, 4)] :=
  save_load_roundtrip_amended fmtInt parseIntChars [("A", 1, 2), ("B", 3, 4)]
    (by with_unfolding_all decide) (by with_unfolding_all decide)

end IngressPlanner
